import Mathlib

/-!
# Verification of the data-access layer of the movie/rating service

Shallow embedding of the Python sources:

* `backend/db/repositories/rating_repository.py`
  (`retry_on_connection_error`, `RatingRepository.find_by_movie_id`,
  `RatingRepository.get_rating_stats`, `RatingRepository.find_by_user_id`);
* `backend/services/movie_service.py`
  (`MovieService.get_movies_list`, `MovieService.get_movie_ratings`,
  `MovieService.search_movies`).

Modelling conventions:

* HBase row keys are `List Char` (byte-lexicographic key order is modelled by
  lexicographic order on characters, which coincides with byte order on the
  ASCII keys used here); the table is a list of rows in physical key order.
* Column values (`data:rating`, `data:timestamp`) are modelled post-decoding:
  the rating as an optional rational (Python `float` parsing of the stored
  decimal string is abstracted to the exact rational value), the timestamp as
  an optional string.  A missing column is `none`.
* Python numeric values (`float`, `int`) are modelled as `ℚ` / `ℤ` / `ℕ`.
* Exceptions are modelled by explicit outcome types carrying the exception
  message (`str(e)`).
-/

namespace MovieRatings

/-! ### Character-list helpers (Python string semantics) -/

/-- Boolean prefix test on character lists. -/
def isPrefixL : List Char → List Char → Bool
  | [], _ => true
  | _ :: _, [] => false
  | a :: as, b :: bs => if a = b then isPrefixL as bs else false

/-- Python substring containment `pat in hay`, on character lists. -/
def containsSub : List Char → List Char → Bool
  | [], pat => isPrefixL pat []
  | a :: t, pat => isPrefixL pat (a :: t) || containsSub t pat

/-- Strict lexicographic order on character lists (byte order of row keys). -/
def ltL : List Char → List Char → Bool
  | _, [] => false
  | [], _ :: _ => true
  | a :: as, b :: bs => if a < b then true else if a = b then ltL as bs else false

/-- Non-strict lexicographic order, as the negation of the reversed strict one. -/
def leL (a b : List Char) : Bool := !(ltL b a)

/-- Python `str.split(sep)` for a one-character separator: splits at every
occurrence, keeping empty parts (`"".split('_') == ['']`,
`"a__b".split('_') == ['a', '', 'b']`). -/
def splitOnChar (c : Char) : List Char → List (List Char)
  | [] => [[]]
  | a :: t =>
    if a = c then [] :: splitOnChar c t
    else
      match splitOnChar c t with
      | [] => [[a]]
      | h :: r => (a :: h) :: r

theorem length_splitOnChar (c : Char) :
    ∀ l : List Char, (splitOnChar c l).length = l.count c + 1 := by
  intro l
  induction l with
  | nil => simp [splitOnChar]
  | cons a t ih =>
    by_cases h : a = c
    · subst h
      simp [splitOnChar, ih, List.count_cons]
    · rcases hs : splitOnChar c t with _ | ⟨p, r⟩
      · rw [hs] at ih; simp at ih
      · rw [hs] at ih
        simp only [splitOnChar, if_neg h, hs, List.length_cons] at ih ⊢
        have hac : (a == c) = false := by simp [h]
        simp [List.count_cons, hac]
        omega

theorem splitOnChar_append (c : Char) (u t : List Char) (hu : c ∉ u) :
    splitOnChar c (u ++ c :: t) = u :: splitOnChar c t := by
  induction u with
  | nil => simp [splitOnChar]
  | cons a u' ih =>
    have ha : a ≠ c := fun h => hu (h ▸ List.mem_cons_self a u')
    have hu' : c ∉ u' := fun h => hu (List.mem_cons_of_mem a h)
    simp only [List.cons_append, splitOnChar, if_neg ha, List.append_eq, ih hu']

/-- A key lying in the half-open range `[s, s ++ [c])` (lexicographically)
must have `s` as a prefix. -/
theorem prefix_of_range (c : Char) :
    ∀ (s k : List Char), ltL k s = false → ltL k (s ++ [c]) = true → s <+: k := by
  intro s
  induction s with
  | nil => intro k _ _; exact List.nil_prefix
  | cons a as ih =>
    intro k h1 h2
    cases k with
    | nil => simp [ltL] at h1
    | cons b bs =>
      simp only [ltL, List.cons_append] at h1 h2
      by_cases hba : b < a
      · rw [if_pos hba] at h1; simp at h1
      · rw [if_neg hba] at h1 h2
        by_cases hb : b = a
        · rw [if_pos hb] at h1 h2
          subst hb
          obtain ⟨tl, htl⟩ := ih bs h1 h2
          exact ⟨tl, by rw [List.cons_append, htl]⟩
        · rw [if_neg hb] at h2; simp at h2

/-! ### The retry decorator `retry_on_connection_error` (rating_repository.py, lines 10-34)

The decorated operation is modelled by the list of outcomes the wrapped
function body would produce on each successive attempt (one entry per loop
iteration that reaches the call); for `max_retries = 2` this list has length
2.  The wrapper's visible behaviour is the produced event trace (one
`refreshTable` per loop iteration, from `self._refresh_table()`, followed by
one `callFunc` event for the attempt) together with the final outcome. -/

/-- Outcome of one execution of the wrapped function body: a return value, or
an exception with message `str(e)`. -/
inductive Outcome (α : Type) where
  | ok : α → Outcome α
  | err : String → Outcome α
deriving DecidableEq

/-- Observable result of the whole wrapped call.  The source only ever
re-raises the original exception (`raise` / `raise last_error`), modelled by
`raised`.  `connectionExhausted` is the error kind named by the spec (§4.2,
§7); the source has no such class and never constructs it — the constructor
exists so that the spec's claim about it can be stated and compared. -/
inductive RetryOutcome (α : Type) where
  | ok : α → RetryOutcome α
  | raised : String → RetryOutcome α
  | connectionExhausted : String → RetryOutcome α
deriving DecidableEq

/-- Events observable from outside the wrapper: a table-handle refresh
(`self._refresh_table()`) or a call of the wrapped function (attempt index). -/
inductive RetryEvent where
  | refreshTable
  | callFunc : Nat → RetryEvent
deriving DecidableEq

/-- Transient-error classification (rating_repository.py line 26):
`'connection' in error_msg or 'broken pipe' in error_msg or '10053' in
error_msg` where `error_msg = str(e).lower()` (lower-casing applied
character-wise). -/
def isConnectionError (msg : String) : Bool :=
  let m := msg.data.map Char.toLower
  containsSub m ("connection".data) || containsSub m ("broken pipe".data) ||
    containsSub m ("10053".data)

/-- The loop body of the wrapper, from iteration `i` on, given the outcomes of
the remaining attempts.  Each iteration refreshes the table handle, then calls
the wrapped function; a connection-classified error with attempts remaining
continues the loop, everything else returns or re-raises.  An empty outcome
list models falling off the loop (`raise last_error`), unreachable when
`max_retries ≥ 1`. -/
def retryRun {α : Type} : Nat → List (Outcome α) → List RetryEvent × RetryOutcome α
  | _, [] => ([], RetryOutcome.raised "")
  | i, o :: rest =>
    let ev := [RetryEvent.refreshTable, RetryEvent.callFunc i]
    match o with
    | Outcome.ok v => (ev, RetryOutcome.ok v)
    | Outcome.err msg =>
      if isConnectionError msg then
        match rest with
        | [] => (ev, RetryOutcome.raised msg)
        | _ :: _ =>
          let next := retryRun (i + 1) rest
          (ev ++ next.1, next.2)
      else (ev, RetryOutcome.raised msg)

/-- The decorator `retry_on_connection_error(max_retries=len outcomes)` applied to an
operation whose successive attempts produce `outcomes`. -/
def retry_on_connection_error {α : Type} (outcomes : List (Outcome α)) :
    List RetryEvent × RetryOutcome α :=
  retryRun 0 outcomes

/-- Number of attempts actually made (calls of the wrapped function). -/
def numAttempts {α : Type} (run : List RetryEvent × RetryOutcome α) : Nat :=
  run.1.countP fun e => match e with
    | RetryEvent.callFunc _ => true
    | _ => false

/-! ### RatingRepository (rating_repository.py)

The HBase table is a list of rows in physical (lexicographic) key order.
`table.scan()` yields all rows; `table.scan(row_start, row_stop)` yields the
rows whose key lies in the half-open range `[row_start, row_stop)`. -/

/-- One stored row: its row key and the two decoded column values
(`data:rating` as an exact rational, `data:timestamp` as a string);
`none` models a missing column. -/
structure Row where
  key : List Char
  rating : Option ℚ
  timestamp : Option (List Char)
deriving DecidableEq

/-- The dict appended for each kept row:
`{'user_id': ..., 'movie_id': ..., 'rating': ..., 'timestamp': ...}`, with the
missing-column defaults `data.get(b'data:rating', b'0')` (so rating `0`) and
`data.get(b'data:timestamp', b'')` (so the empty string) applied. -/
structure RatingRec where
  user_id : List Char
  movie_id : List Char
  rating : ℚ
  timestamp : List Char
deriving DecidableEq

/-- Record built from a row whose key split into `[uid, mid]`. -/
def rowToRec (uid mid : List Char) (r : Row) : RatingRec :=
  { user_id := uid, movie_id := mid,
    rating := r.rating.getD 0, timestamp := r.timestamp.getD [] }

/-- Range scan `table.scan(row_start=start, row_stop=stop)`: the rows of the table whose
key is in `[start, stop)`. -/
def scanRange (tbl : List Row) (start stop : List Char) : List Row :=
  tbl.filter fun r => leL start r.key && ltL r.key stop

/-- Python truthiness of the `limit` argument (`if limit and ...`):
`None` and `0` are falsy. -/
def limitTruthy : Option Nat → Bool
  | none => false
  | some n => n != 0

/-- The scan loop of `find_by_movie_id` (lines 61-76): decode the key, keep
rows splitting into exactly two parts whose second part equals `movie_id`,
and break once `limit` is truthy and `len(ratings) >= limit`. -/
def findByMovieIdAux (movie_id : List Char) (limit : Option Nat) :
    List Row → List RatingRec → List RatingRec
  | [], acc => acc
  | r :: rest, acc =>
    match splitOnChar '_' r.key with
    | [uid, mid] =>
      if mid = movie_id then
        let acc2 := acc ++ [rowToRec uid mid r]
        if limitTruthy limit && limit.getD 0 ≤ acc2.length then acc2
        else findByMovieIdAux movie_id limit rest acc2
      else findByMovieIdAux movie_id limit rest acc
    | _ => findByMovieIdAux movie_id limit rest acc

/-- Operation `RatingRepository.find_by_movie_id(movie_id, limit)` (lines 48-81):
full-table scan filtering on the second key component. -/
def find_by_movie_id (tbl : List Row) (movie_id : List Char)
    (limit : Option Nat) : List RatingRec :=
  findByMovieIdAux movie_id limit tbl []

/-- The matching records of a scan, in encounter order (no early stop):
specification-shaped companion of the scan loop. -/
def matchedRecs (movie_id : List Char) (rows : List Row) : List RatingRec :=
  rows.filterMap fun r =>
    match splitOnChar '_' r.key with
    | [uid, mid] => if mid = movie_id then some (rowToRec uid mid r) else none
    | _ => none

/-- The scan loop of `find_by_user_id` (lines 141-155): like the movie scan
but with no filter on the decoded components and an unconditional
`len(ratings) >= limit` break. -/
def findByUserIdAux (limit : Nat) : List Row → List RatingRec → List RatingRec
  | [], acc => acc
  | r :: rest, acc =>
    match splitOnChar '_' r.key with
    | [uid, mid] =>
      let acc2 := acc ++ [rowToRec uid mid r]
      if limit ≤ acc2.length then acc2
      else findByUserIdAux limit rest acc2
    | _ => findByUserIdAux limit rest acc

/-- All decodable records of a row list, in encounter order (companion of the
user scan loop, no early stop). -/
def allRecs (rows : List Row) : List RatingRec :=
  rows.filterMap fun r =>
    match splitOnChar '_' r.key with
    | [uid, mid] => some (rowToRec uid mid r)
    | _ => none

/-- Operation `RatingRepository.find_by_user_id(user_id, limit=10)` (lines 124-160):
range-bounded scan over `[user_id + "_", user_id + "_~")`. -/
def find_by_user_id (tbl : List Row) (user_id : List Char)
    (limit : Nat) : List RatingRec :=
  let start := user_id ++ ['_']
  let stop := user_id ++ ['_', '~']
  findByUserIdAux limit (scanRange tbl start stop) []

/-- Bucket label of one rating (line 112):
`str(int(rating_value)) if rating_value >= 1 else "0.5"`; `int()` truncates
toward zero, which on the branch `rating_value >= 1` is the floor. -/
def bucketLabel (q : ℚ) : String :=
  if 1 ≤ q then toString ⌊q⌋ else "0.5"

/-- Update `distribution[rating_key] += 1` on a `defaultdict(int)`, preserving
insertion order (as the final `dict(distribution)` does). -/
def incrKey (k : String) : List (String × Nat) → List (String × Nat)
  | [] => [(k, 1)]
  | (k', n) :: t => if k' = k then (k', n + 1) :: t else (k', n) :: incrKey k t

/-- Result dict of `get_rating_stats`. -/
structure RatingStats where
  avg_rating : ℚ
  total_count : Nat
  rating_distribution : List (String × Nat)
deriving DecidableEq

/-- One loop step of the statistics pass (lines 108-113): accumulate the
running total and the distribution. -/
def statsStep (p : ℚ × List (String × Nat)) (r : RatingRec) :
    ℚ × List (String × Nat) :=
  (p.1 + r.rating, incrKey (bucketLabel r.rating) p.2)

/-- Operation `RatingRepository.get_rating_stats(movie_id)` (lines 83-122): unbounded
scan via `find_by_movie_id(movie_id, limit=None)`, then average and
distribution; the empty set short-circuits to zeros. -/
def get_rating_stats (tbl : List Row) (movie_id : List Char) : RatingStats :=
  let all_ratings := find_by_movie_id tbl movie_id none
  if all_ratings.isEmpty then
    { avg_rating := 0, total_count := 0, rating_distribution := [] }
  else
    let acc := all_ratings.foldl statsStep ((0 : ℚ), [])
    { avg_rating := acc.1 / all_ratings.length,
      total_count := all_ratings.length,
      rating_distribution := acc.2 }

/-! ### MovieService (movie_service.py)

The movie repository (`backend/db/repositories/movie_repository.py`) is not
part of the given sources; per the spec (§6) it is an external collaborator
exposing `find_all()`, `find_by_id(id)` and `search_by_text(query, limit)`.
`find_all` and `search_by_text` results are passed in as inputs; `find_by_id`
is modelled from the spec below.  The raw-record → domain-model conversion
(`float(...)`, `int(...)` field parses) is the identity in this embedding. -/

/-- Domain movie record (`models/domain.py` `Movie`): precomputed
`avg_rating` and `rating_count` live on the record. -/
structure Movie where
  id : String
  title : String
  genres : List String
  avg_rating : ℚ
  rating_count : ℤ
deriving DecidableEq

/-- Sort relation of `get_movies_list` (line 45):
`sort(key=lambda x: (x.avg_rating, x.rating_count), reverse=True)` — `a`
may come before `b` iff `b`'s key pair is lexicographically ≤ `a`'s. -/
def movieRel (a b : Movie) : Prop :=
  toLex (b.avg_rating, b.rating_count) ≤ toLex (a.avg_rating, a.rating_count)

instance : DecidableRel movieRel := fun a b =>
  inferInstanceAs (Decidable (toLex (b.avg_rating, b.rating_count) ≤
    toLex (a.avg_rating, a.rating_count)))

instance : IsTotal Movie movieRel :=
  ⟨fun a b => le_total (toLex (b.avg_rating, b.rating_count))
    (toLex (a.avg_rating, a.rating_count))⟩

instance : IsTrans Movie movieRel :=
  ⟨fun _ _ _ hab hbc => le_trans hbc hab⟩

/-- Ceiling division on naturals; used to state the
`total_pages = ceil(total / page_size)` claims. -/
def ceilDivNat (a b : Nat) : Nat := a / b + (if a % b = 0 then 0 else 1)

/-- Operation `MovieService.get_movies_list(page, page_size)` (lines 18-57): fetch all
movies (the `find_all()` result is the input list), sort descending by
`(avg_rating, rating_count)` (stable, as Python's sort), slice
`[(page-1)*page_size : page*page_size]`, and return
`(movies, total, total_pages)` with `total_pages = (total+page_size-1) //
page_size`. -/
def get_movies_list (all_movies_data : List Movie) (page page_size : Nat) :
    List Movie × Nat × Nat :=
  let all_movies := List.insertionSort movieRel all_movies_data
  let total := all_movies.length
  let total_pages := (total + page_size - 1) / page_size
  let start_idx := (page - 1) * page_size
  ((all_movies.drop start_idx).take page_size, total, total_pages)

/-- Sort relation of `get_movie_ratings` (line 126):
`sort(key=lambda x: x.timestamp, reverse=True)` — descending by the
timestamp string under lexicographic string comparison (the `≤` of the
lexicographic linear order on character lists). -/
def ratingTimeRel (a b : RatingRec) : Prop := b.timestamp ≤ a.timestamp

instance : DecidableRel ratingTimeRel := fun a b =>
  inferInstanceAs (Decidable (b.timestamp ≤ a.timestamp))

instance : IsTotal RatingRec ratingTimeRel :=
  ⟨fun a b => le_total b.timestamp a.timestamp⟩

instance : IsTrans RatingRec ratingTimeRel :=
  ⟨fun _ _ _ hab hbc => le_trans hbc hab⟩

/-- Operation `MovieService.get_movie_ratings(movie_id, page, page_size)` (lines
99-138): unbounded scan (`limit=None`), sort descending by timestamp,
paginate; `total_pages = (total+page_size-1) // page_size if total > 0 else
0`. -/
def get_movie_ratings (tbl : List Row) (movie_id : List Char)
    (page page_size : Nat) : List RatingRec × Nat × Nat :=
  let all_ratings := List.insertionSort ratingTimeRel
    (find_by_movie_id tbl movie_id none)
  let total := all_ratings.length
  let total_pages := if 0 < total then (total + page_size - 1) / page_size else 0
  let start_idx := (page - 1) * page_size
  ((all_ratings.drop start_idx).take page_size, total, total_pages)

/-- Modelled from the spec: the movie repository's
`find_by_id(id) -> optional raw movie record` (its source file
`movie_repository.py` is not among the given sources) — the record of the
store with the given id, if any. -/
def movieRepoFindById (store : List Movie) (id : String) : Option Movie :=
  store.find? fun m => m.id = id

/-- Python `str.isdigit()` on an already-nonempty string: every character is
a digit. -/
def isDigitStr (s : String) : Bool := s.data.all Char.isDigit

/-- Python `str.strip()`: remove leading and trailing whitespace. -/
def stripL (l : List Char) : List Char :=
  ((l.dropWhile Char.isWhitespace).reverse.dropWhile Char.isWhitespace).reverse

/-- Predicate `title_match` of `search_movies` (line 200): case-insensitive substring
test `query.lower() in movie.title.lower()` (lower-casing character-wise). -/
def titleMatch (query : String) (m : Movie) : Bool :=
  containsSub (m.title.data.map Char.toLower) (query.data.map Char.toLower)

/-- Sort key of `search_movies` (line 201):
`(not title_match, -movie.avg_rating, -movie.rating_count)`, compared
lexicographically (Python tuple order, `False < True`). -/
def searchKey (query : String) (m : Movie) : Lex (Bool × Lex (ℚ × ℤ)) :=
  toLex (!(titleMatch query m), toLex (-m.avg_rating, -m.rating_count))

/-- Ascending order on the search sort key. -/
def searchRel (query : String) (a b : Movie) : Prop :=
  searchKey query a ≤ searchKey query b

instance (query : String) : DecidableRel (searchRel query) := fun a b =>
  inferInstanceAs (Decidable (searchKey query a ≤ searchKey query b))

instance (query : String) : IsTotal Movie (searchRel query) :=
  ⟨fun a b => le_total (searchKey query a) (searchKey query b)⟩

instance (query : String) : IsTrans Movie (searchRel query) :=
  ⟨fun _ _ _ hab hbc => le_trans hab hbc⟩

/-- Operation `MovieService.search_movies(query, limit)` (lines 155-208): trim the
query; an empty query returns `[]`; an all-digit query is an exact id lookup
via `find_by_id`; otherwise the text-search results
(`search_by_text(query, limit)`, passed in as a function, since that
collaborator's source is not given) are re-ranked by `sort_key`. -/
def search_movies (store : List Movie)
    (search_by_text : String → Nat → List Movie)
    (query : String) (limit : Nat) : List Movie :=
  let q : String := ⟨stripL query.data⟩
  if q = "" then []
  else if isDigitStr q then
    match movieRepoFindById store q with
    | some m => [m]
    | none => []
  else
    List.insertionSort (searchRel q) (search_by_text q limit)

/-! ## Claims -/

/-- C1: with `max_retries=2` the wrapped operation is attempted at most 2
times; an error whose lower-cased message contains "connection", "broken
pipe" or "10053" is transient and retried, while any other error propagates
unchanged after exactly one attempt; and a connection-class failure on
attempt 1 followed by success on attempt 2 returns the successful result with
the table handle reacquired exactly once between the two attempts (the event
trace is `[refresh, call 0, refresh, call 1]`). -/
theorem C1_retry_policy {α : Type} (o1 o2 : Outcome α) :
    numAttempts (retry_on_connection_error [o1, o2]) ≤ 2
    ∧ (∀ msg, o1 = Outcome.err msg → isConnectionError msg = false →
        retry_on_connection_error [o1, o2]
          = ([RetryEvent.refreshTable, RetryEvent.callFunc 0],
             RetryOutcome.raised msg))
    ∧ (∀ msg v, o1 = Outcome.err msg → isConnectionError msg = true →
        o2 = Outcome.ok v →
        retry_on_connection_error [o1, o2]
          = ([RetryEvent.refreshTable, RetryEvent.callFunc 0,
              RetryEvent.refreshTable, RetryEvent.callFunc 1],
             RetryOutcome.ok v)) := by
  refine ⟨?_, ?_, ?_⟩
  · cases o1 with
    | ok v => simp [retry_on_connection_error, retryRun, numAttempts]
    | err m1 =>
      cases o2 with
      | ok v =>
        by_cases h : isConnectionError m1 = true <;>
          simp [retry_on_connection_error, retryRun, numAttempts, h]
      | err m2 =>
        by_cases h1 : isConnectionError m1 = true <;>
        by_cases h2 : isConnectionError m2 = true <;>
          simp [retry_on_connection_error, retryRun, numAttempts, h1, h2]
  · rintro msg rfl h
    simp [retry_on_connection_error, retryRun, h]
  · rintro msg v rfl h rfl
    simp [retry_on_connection_error, retryRun, h]

/-- Witness for C1 at concrete inputs: a connection error then success gives
the successful result with one refresh in between; a non-connection error
propagates unchanged after one attempt. -/
theorem C1_retry_policy_witness :
    numAttempts (retry_on_connection_error (α := Nat)
        [Outcome.err "Connection reset by peer", Outcome.ok 7]) ≤ 2
    ∧ retry_on_connection_error (α := Nat)
        [Outcome.err "KeyError: x", Outcome.ok 7]
        = ([RetryEvent.refreshTable, RetryEvent.callFunc 0],
           RetryOutcome.raised "KeyError: x")
    ∧ retry_on_connection_error (α := Nat)
        [Outcome.err "Connection reset by peer", Outcome.ok 7]
        = ([RetryEvent.refreshTable, RetryEvent.callFunc 0,
            RetryEvent.refreshTable, RetryEvent.callFunc 1],
           RetryOutcome.ok 7) :=
  ⟨(C1_retry_policy _ _).1,
   (C1_retry_policy _ _).2.1 "KeyError: x" rfl (by decide),
   (C1_retry_policy _ _).2.2 "Connection reset by peer" 7 rfl (by decide) rfl⟩

/-- C3 counterexample: when both attempts fail with connection-class errors,
the wrapper re-raises the raw last error (`raise` on the final attempt); it
is not propagated as a `ConnectionExhausted` kind — no such class exists in
the source. -/
theorem C3_counterexample :
    (retry_on_connection_error (α := Nat)
        [Outcome.err "Connection reset by peer", Outcome.err "Broken pipe"]).2
      = RetryOutcome.raised "Broken pipe"
    ∧ ¬ ∃ m, (retry_on_connection_error (α := Nat)
        [Outcome.err "Connection reset by peer", Outcome.err "Broken pipe"]).2
      = RetryOutcome.connectionExhausted m := by
  constructor
  · decide
  · rintro ⟨m, hm⟩
    have hr : (retry_on_connection_error (α := Nat)
        [Outcome.err "Connection reset by peer", Outcome.err "Broken pipe"]).2
        = RetryOutcome.raised "Broken pipe" := by decide
    rw [hr] at hm
    simp at hm

/-- C3 (amended): when every one of the `max_retries=2` attempts fails with a
transient (connection-class) error, the operation propagates the last error
as the raw underlying exception, re-raised unchanged (the source has no
`ConnectionExhausted` wrapper). -/
theorem C3_retry_exhaustion {α : Type} (m1 m2 : String)
    (h1 : isConnectionError m1 = true) (h2 : isConnectionError m2 = true) :
    retry_on_connection_error (α := α) [Outcome.err m1, Outcome.err m2]
      = ([RetryEvent.refreshTable, RetryEvent.callFunc 0,
          RetryEvent.refreshTable, RetryEvent.callFunc 1],
         RetryOutcome.raised m2) := by
  simp [retry_on_connection_error, retryRun, h1, h2]

/-- Witness for C3 (amended) at concrete transient error messages. -/
theorem C3_retry_exhaustion_witness :
    retry_on_connection_error (α := Nat)
        [Outcome.err "Connection reset by peer", Outcome.err "Broken pipe"]
      = ([RetryEvent.refreshTable, RetryEvent.callFunc 0,
          RetryEvent.refreshTable, RetryEvent.callFunc 1],
         RetryOutcome.raised "Broken pipe") :=
  C3_retry_exhaustion "Connection reset by peer" "Broken pipe"
    (by decide) (by decide)

/-! ### Scan-loop lemmas -/

theorem matchedRecs_cons (mid : List Char) (r : Row) (rest : List Row) :
    matchedRecs mid (r :: rest) =
      (match splitOnChar '_' r.key with
       | [u, m] => if m = mid then [rowToRec u m r] else []
       | _ => []) ++ matchedRecs mid rest := by
  rcases hs : splitOnChar '_' r.key with _ | ⟨u, _ | ⟨m, _ | ⟨x, xs⟩⟩⟩
  · simp [matchedRecs, List.filterMap_cons, hs]
  · simp [matchedRecs, List.filterMap_cons, hs]
  · by_cases hm : m = mid <;> simp [matchedRecs, List.filterMap_cons, hs, hm]
  · simp [matchedRecs, List.filterMap_cons, hs]

theorem findByMovieIdAux_none (mid : List Char) :
    ∀ (rows : List Row) (acc : List RatingRec),
      findByMovieIdAux mid none rows acc = acc ++ matchedRecs mid rows := by
  intro rows
  induction rows with
  | nil => intro acc; simp [findByMovieIdAux, matchedRecs]
  | cons r rest ih =>
    intro acc
    rcases hs : splitOnChar '_' r.key with _ | ⟨u, _ | ⟨m, _ | ⟨x, xs⟩⟩⟩
    · simp [findByMovieIdAux, hs, matchedRecs_cons, ih]
    · simp [findByMovieIdAux, hs, matchedRecs_cons, ih]
    · by_cases hm : m = mid
      · simp [findByMovieIdAux, hs, matchedRecs_cons, ih, hm, limitTruthy]
      · simp [findByMovieIdAux, hs, matchedRecs_cons, ih, hm]
    · simp [findByMovieIdAux, hs, matchedRecs_cons, ih]

theorem findByMovieIdAux_zero (mid : List Char) :
    ∀ (rows : List Row) (acc : List RatingRec),
      findByMovieIdAux mid (some 0) rows acc = findByMovieIdAux mid none rows acc := by
  intro rows
  induction rows with
  | nil => intro acc; simp [findByMovieIdAux]
  | cons r rest ih =>
    intro acc
    rcases hs : splitOnChar '_' r.key with _ | ⟨u, _ | ⟨m, _ | ⟨x, xs⟩⟩⟩
    · simp [findByMovieIdAux, hs, ih]
    · simp [findByMovieIdAux, hs, ih]
    · by_cases hm : m = mid
      · simp [findByMovieIdAux, hs, ih, hm, limitTruthy]
      · simp [findByMovieIdAux, hs, ih, hm]
    · simp [findByMovieIdAux, hs, ih]

theorem findByMovieIdAux_take (mid : List Char) (n : Nat) :
    ∀ (rows : List Row) (acc : List RatingRec), acc.length < n →
      findByMovieIdAux mid (some n) rows acc = (acc ++ matchedRecs mid rows).take n := by
  intro rows
  induction rows with
  | nil =>
    intro acc h
    simp [findByMovieIdAux, matchedRecs, List.take_of_length_le (Nat.le_of_lt h)]
  | cons r rest ih =>
    intro acc h
    rcases hs : splitOnChar '_' r.key with _ | ⟨u, _ | ⟨m, _ | ⟨x, xs⟩⟩⟩
    · simp [findByMovieIdAux, hs, matchedRecs_cons, ih acc h]
    · simp [findByMovieIdAux, hs, matchedRecs_cons, ih acc h]
    · by_cases hm : m = mid
      · by_cases hlen : n ≤ acc.length + 1
        · simp only [findByMovieIdAux, hs, if_pos hm]
          rw [if_pos]
          · simp only [matchedRecs_cons, hs, if_pos hm]
            rw [show acc ++ ([rowToRec u m r] ++ matchedRecs mid rest)
                  = (acc ++ [rowToRec u m r]) ++ matchedRecs mid rest by
                simp [List.append_assoc],
              show n = (acc ++ [rowToRec u m r]).length by simp; omega,
              List.take_left]
          · simp only [limitTruthy, Option.getD_some, Bool.and_eq_true,
              bne_iff_ne, ne_eq, decide_eq_true_eq, List.length_append,
              List.length_cons, List.length_nil]
            omega
        · simp only [findByMovieIdAux, hs, if_pos hm]
          rw [if_neg]
          · rw [ih _ (by simp only [List.length_append, List.length_cons,
                List.length_nil]; omega)]
            simp only [matchedRecs_cons, hs, if_pos hm]
            simp [List.append_assoc]
          · simp only [limitTruthy, Option.getD_some, Bool.and_eq_true,
              bne_iff_ne, ne_eq, decide_eq_true_eq, List.length_append,
              List.length_cons, List.length_nil]
            omega
      · simp [findByMovieIdAux, hs, matchedRecs_cons, hm, ih acc h]
    · simp [findByMovieIdAux, hs, matchedRecs_cons, ih acc h]

/-- C9: `find_by_movie_id` treats `limit=0` the same as `limit=None` (the
truthiness guard makes `0` behave as "no limit": the full scan returns every
matching row, in scan-encounter order); for every positive `limit` the result
is the first `limit` matches of the full scan — hence at most `limit`
entries, in scan-encounter order. -/
theorem C9_limit_zero_full_scan (tbl : List Row) (mid : List Char) :
    find_by_movie_id tbl mid (some 0) = find_by_movie_id tbl mid none
    ∧ find_by_movie_id tbl mid none = matchedRecs mid tbl
    ∧ (∀ n, 0 < n → find_by_movie_id tbl mid (some n)
        = (find_by_movie_id tbl mid none).take n)
    ∧ (∀ n, 0 < n → (find_by_movie_id tbl mid (some n)).length ≤ n) := by
  have hnone : find_by_movie_id tbl mid none = matchedRecs mid tbl := by
    unfold find_by_movie_id
    simpa using findByMovieIdAux_none mid tbl []
  have htake : ∀ n, 0 < n → find_by_movie_id tbl mid (some n)
      = (find_by_movie_id tbl mid none).take n := by
    intro n hn
    unfold find_by_movie_id
    rw [findByMovieIdAux_take mid n tbl [] (by simpa using hn)]
    rw [show findByMovieIdAux mid none tbl [] = find_by_movie_id tbl mid none from rfl,
      hnone]
    simp
  refine ⟨?_, hnone, htake, ?_⟩
  · unfold find_by_movie_id
    exact findByMovieIdAux_zero mid tbl []
  · intro n hn
    rw [htake n hn]
    simp [List.length_take]

/-- Witness for C9 at a concrete table: `limit=0` returns both matching rows
(full scan), `limit=1` returns the first match only. -/
theorem C9_limit_zero_full_scan_witness :
    find_by_movie_id
        [⟨"u1_m1".data, some 5, none⟩, ⟨"u2_m1".data, some 3, none⟩]
        ("m1".data) (some 0)
      = find_by_movie_id
        [⟨"u1_m1".data, some 5, none⟩, ⟨"u2_m1".data, some 3, none⟩]
        ("m1".data) none
    ∧ find_by_movie_id
        [⟨"u1_m1".data, some 5, none⟩, ⟨"u2_m1".data, some 3, none⟩]
        ("m1".data) (some 1)
      = (find_by_movie_id
        [⟨"u1_m1".data, some 5, none⟩, ⟨"u2_m1".data, some 3, none⟩]
        ("m1".data) none).take 1 :=
  ⟨(C9_limit_zero_full_scan _ _).1, (C9_limit_zero_full_scan _ _).2.2.1 1 (by decide)⟩

theorem allRecs_cons (r : Row) (rest : List Row) :
    allRecs (r :: rest) =
      (match splitOnChar '_' r.key with
       | [u, m] => [rowToRec u m r]
       | _ => []) ++ allRecs rest := by
  rcases hs : splitOnChar '_' r.key with _ | ⟨u, _ | ⟨m, _ | ⟨x, xs⟩⟩⟩ <;>
    simp [allRecs, List.filterMap_cons, hs]

theorem findByUserIdAux_mem (limit : Nat) :
    ∀ (rows : List Row) (acc : List RatingRec) (rec : RatingRec),
      rec ∈ findByUserIdAux limit rows acc →
      rec ∈ acc ∨ ∃ r ∈ rows, ∃ u m,
        splitOnChar '_' r.key = [u, m] ∧ rec = rowToRec u m r := by
  intro rows
  induction rows with
  | nil => intro acc rec h; exact Or.inl (by simpa [findByUserIdAux] using h)
  | cons r rest ih =>
    intro acc rec h
    rcases hs : splitOnChar '_' r.key with _ | ⟨u, _ | ⟨m, _ | ⟨x, xs⟩⟩⟩
    · rcases ih acc rec (by simpa [findByUserIdAux, hs] using h) with h' | ⟨r', hr', hrest⟩
      · exact Or.inl h'
      · exact Or.inr ⟨r', List.mem_cons_of_mem r hr', hrest⟩
    · rcases ih acc rec (by simpa [findByUserIdAux, hs] using h) with h' | ⟨r', hr', hrest⟩
      · exact Or.inl h'
      · exact Or.inr ⟨r', List.mem_cons_of_mem r hr', hrest⟩
    · simp only [findByUserIdAux, hs] at h
      by_cases hstop : limit ≤ (acc ++ [rowToRec u m r]).length
      · rw [if_pos hstop] at h
        rcases List.mem_append.mp h with h' | h'
        · exact Or.inl h'
        · exact Or.inr ⟨r, List.mem_cons_self r rest, u, m, hs,
            by simpa using h'⟩
      · rw [if_neg hstop] at h
        rcases ih _ rec h with h' | ⟨r', hr', hrest⟩
        · rcases List.mem_append.mp h' with h'' | h''
          · exact Or.inl h''
          · exact Or.inr ⟨r, List.mem_cons_self r rest, u, m, hs,
              by simpa using h''⟩
        · exact Or.inr ⟨r', List.mem_cons_of_mem r hr', hrest⟩
    · rcases ih acc rec (by simpa [findByUserIdAux, hs] using h) with h' | ⟨r', hr', hrest⟩
      · exact Or.inl h'
      · exact Or.inr ⟨r', List.mem_cons_of_mem r hr', hrest⟩

theorem findByUserIdAux_take (n : Nat) :
    ∀ (rows : List Row) (acc : List RatingRec), acc.length < n →
      findByUserIdAux n rows acc = (acc ++ allRecs rows).take n := by
  intro rows
  induction rows with
  | nil =>
    intro acc h
    simp [findByUserIdAux, allRecs, List.take_of_length_le (Nat.le_of_lt h)]
  | cons r rest ih =>
    intro acc h
    rcases hs : splitOnChar '_' r.key with _ | ⟨u, _ | ⟨m, _ | ⟨x, xs⟩⟩⟩
    · simp [findByUserIdAux, hs, allRecs_cons, ih acc h]
    · simp [findByUserIdAux, hs, allRecs_cons, ih acc h]
    · by_cases hlen : n ≤ acc.length + 1
      · simp only [findByUserIdAux, hs]
        rw [if_pos (by simp only [List.length_append, List.length_cons,
          List.length_nil]; omega)]
        simp only [allRecs_cons, hs]
        rw [show acc ++ ([rowToRec u m r] ++ allRecs rest)
              = (acc ++ [rowToRec u m r]) ++ allRecs rest by simp [List.append_assoc],
          show n = (acc ++ [rowToRec u m r]).length by simp; omega,
          List.take_left]
      · simp only [findByUserIdAux, hs]
        rw [if_neg (by simp only [List.length_append, List.length_cons,
          List.length_nil]; omega)]
        rw [ih _ (by simp only [List.length_append, List.length_cons,
          List.length_nil]; omega)]
        simp only [allRecs_cons, hs]
        simp [List.append_assoc]
    · simp [findByUserIdAux, hs, allRecs_cons, ih acc h]

/-- A key in the half-open scan range `[uid ++ "_", uid ++ "_~")` that splits
on `'_'` into exactly two parts has the queried `uid` as its first part. -/
theorem range_first_component (uid k u m : List Char)
    (h1 : leL (uid ++ ['_']) k = true)
    (h2 : ltL k (uid ++ ['_', '~']) = true)
    (hs : splitOnChar '_' k = [u, m]) : u = uid := by
  have hlt : ltL k (uid ++ ['_']) = false := by
    simpa [leL] using h1
  have h2' : ltL k ((uid ++ ['_']) ++ ['~']) = true := by
    simpa [List.append_assoc] using h2
  obtain ⟨tail, hk⟩ := prefix_of_range '~' (uid ++ ['_']) k hlt h2'
  subst hk
  by_cases hu : '_' ∈ uid
  · exfalso
    have hlen := length_splitOnChar '_' ((uid ++ ['_']) ++ tail)
    rw [hs] at hlen
    have hcount : 0 < uid.count '_' := List.count_pos_iff.mpr hu
    simp [List.count_append, List.count_singleton] at hlen
    omega
  · rw [show (uid ++ ['_']) ++ tail = uid ++ '_' :: tail by simp] at hs
    rw [splitOnChar_append '_' uid tail hu] at hs
    injection hs with hfst _
    exact hfst.symm

/-- C7: for every user id and positive limit, `find_by_user_id` scans only
the row range `[user_id ++ "_", user_id ++ "_~")` and never returns a record
whose decoded first key component differs from the queried user id; it stops
once `limit` records are collected (the result is the `limit`-prefix of the
decodable rows in range), so the result has at most `limit` entries. -/
theorem C7_find_by_user_id_range (tbl : List Row) (uid : List Char) (limit : Nat) :
    (∀ rec ∈ find_by_user_id tbl uid limit, rec.user_id = uid)
    ∧ (0 < limit →
        find_by_user_id tbl uid limit
          = (allRecs (scanRange tbl (uid ++ ['_']) (uid ++ ['_', '~']))).take limit)
    ∧ (0 < limit → (find_by_user_id tbl uid limit).length ≤ limit) := by
  have htake : 0 < limit →
      find_by_user_id tbl uid limit
        = (allRecs (scanRange tbl (uid ++ ['_']) (uid ++ ['_', '~']))).take limit := by
    intro hl
    unfold find_by_user_id
    rw [findByUserIdAux_take limit _ [] (by simpa using hl)]
    simp
  refine ⟨?_, htake, ?_⟩
  · intro rec hrec
    unfold find_by_user_id at hrec
    rcases findByUserIdAux_mem limit _ [] rec hrec with h | ⟨r, hr, u, m, hs, rfl⟩
    · simp at h
    · have hr' : r ∈ tbl ∧ leL (uid ++ ['_']) r.key = true
          ∧ ltL r.key (uid ++ ['_', '~']) = true := by
        simpa [scanRange] using hr
      obtain ⟨-, hc1, hc2⟩ := hr'
      have := range_first_component uid r.key u m hc1 hc2 hs
      simp [rowToRec, this]
  · intro hl
    rw [htake hl]
    simp [List.length_take]

/-- Witness for C7 at a concrete table: all returned records carry the
queried user id, and the result respects the limit. -/
theorem C7_find_by_user_id_range_witness :
    find_by_user_id
        [⟨"u1_m1".data, some 5, none⟩, ⟨"u10_m2".data, some 2, none⟩,
         ⟨"u1_m3".data, some 4, none⟩, ⟨"u2_m1".data, some 3, none⟩]
        ("u1".data) 1
      = (allRecs (scanRange
          [⟨"u1_m1".data, some 5, none⟩, ⟨"u10_m2".data, some 2, none⟩,
           ⟨"u1_m3".data, some 4, none⟩, ⟨"u2_m1".data, some 3, none⟩]
          ("u1".data ++ ['_']) ("u1".data ++ ['_', '~']))).take 1
    ∧ (find_by_user_id
        [⟨"u1_m1".data, some 5, none⟩, ⟨"u10_m2".data, some 2, none⟩,
         ⟨"u1_m3".data, some 4, none⟩, ⟨"u2_m1".data, some 3, none⟩]
        ("u1".data) 1).length ≤ 1 :=
  ⟨(C7_find_by_user_id_range _ _ _).2.1 (by decide),
   (C7_find_by_user_id_range _ _ _).2.2 (by decide)⟩

/-- C8 counterexample: the key `"_m1"` splits on the delimiter into two parts
whose first part is empty — so it does NOT split into two non-empty parts —
yet the scan keeps the row (with `user_id = ""`) instead of skipping it: the
source only checks `len(parts) == 2`, not non-emptiness. -/
theorem C8_counterexample :
    splitOnChar '_' ("_m1".data) = [[], "m1".data]
    ∧ find_by_movie_id [⟨"_m1".data, some 5, some ("t".data)⟩] ("m1".data) none
        = [⟨[], "m1".data, 5, "t".data⟩] := by
  constructor
  · decide
  · decide

theorem findByMovieIdAux_filter (mid : List Char) (lim : Option Nat) :
    ∀ (rows : List Row) (acc : List RatingRec),
      findByMovieIdAux mid lim rows acc
        = findByMovieIdAux mid lim
            (rows.filter fun r => (splitOnChar '_' r.key).length == 2) acc := by
  intro rows
  induction rows with
  | nil => intro acc; simp
  | cons r rest ih =>
    intro acc
    rcases hs : splitOnChar '_' r.key with _ | ⟨u, _ | ⟨m, _ | ⟨x, xs⟩⟩⟩
    · simp [findByMovieIdAux, hs, List.filter_cons, ih]
    · simp [findByMovieIdAux, hs, List.filter_cons, ih]
    · rw [show List.filter (fun r => (splitOnChar '_' r.key).length == 2) (r :: rest)
            = r :: List.filter (fun r => (splitOnChar '_' r.key).length == 2) rest by
          simp [List.filter_cons, hs]]
      simp only [findByMovieIdAux, hs]
      by_cases hm : m = mid
      · simp only [if_pos hm]
        split
        · rfl
        · exact ih _
      · simp only [if_neg hm]
        exact ih acc
    · simp [findByMovieIdAux, hs, List.filter_cons, ih]

theorem findByUserIdAux_filter (n : Nat) :
    ∀ (rows : List Row) (acc : List RatingRec),
      findByUserIdAux n rows acc
        = findByUserIdAux n
            (rows.filter fun r => (splitOnChar '_' r.key).length == 2) acc := by
  intro rows
  induction rows with
  | nil => intro acc; simp
  | cons r rest ih =>
    intro acc
    rcases hs : splitOnChar '_' r.key with _ | ⟨u, _ | ⟨m, _ | ⟨x, xs⟩⟩⟩
    · simp [findByUserIdAux, hs, List.filter_cons, ih]
    · simp [findByUserIdAux, hs, List.filter_cons, ih]
    · rw [show List.filter (fun r => (splitOnChar '_' r.key).length == 2) (r :: rest)
            = r :: List.filter (fun r => (splitOnChar '_' r.key).length == 2) rest by
          simp [List.filter_cons, hs]]
      simp only [findByUserIdAux, hs]
      split
      · rfl
      · exact ih _
    · simp [findByUserIdAux, hs, List.filter_cons, ih]

theorem scanRange_filter_comm (tbl : List Row) (s t : List Char) (p : Row → Bool) :
    scanRange (tbl.filter p) s t = (scanRange tbl s t).filter p := by
  simp only [scanRange, List.filter_filter]
  congr 1
  funext r
  rw [Bool.and_comm]

/-- C8 (amended): during every scan in `find_by_movie_id` and
`find_by_user_id`, a row whose key does not split on the delimiter into
exactly two parts is silently skipped — removing all such rows from the
table leaves every result unchanged, so they contribute nothing and do not
abort the scan (the parts need not be non-empty: a key splitting into two
parts, one of them empty, is kept); and a kept row with a missing rating
column gets its rating defaulted to `0` (the decoded `"0"`) and a missing
timestamp column defaulted to the empty string. -/
theorem C8_malformed_rows_and_defaults (tbl : List Row) (mid uid : List Char)
    (lim : Option Nat) (n : Nat) :
    find_by_movie_id tbl mid lim
      = find_by_movie_id
          (tbl.filter fun r => (splitOnChar '_' r.key).length == 2) mid lim
    ∧ find_by_user_id tbl uid n
      = find_by_user_id
          (tbl.filter fun r => (splitOnChar '_' r.key).length == 2) uid n
    ∧ (∀ (r : Row) (u m : List Char), splitOnChar '_' r.key = [u, m] →
        r.rating = none → r.timestamp = none →
        rowToRec u m r = ⟨u, m, 0, []⟩)
    ∧ (∀ (r : Row) (u m : List Char), splitOnChar '_' r.key = [u, m] →
        r.rating = none → r.timestamp = none →
        find_by_movie_id [r] m lim = [⟨u, m, 0, []⟩]) := by
  refine ⟨?_, ?_, ?_, ?_⟩
  · exact findByMovieIdAux_filter mid lim tbl []
  · simp only [find_by_user_id]
    rw [scanRange_filter_comm]
    exact findByUserIdAux_filter n _ []
  · intro r u m _ hrat hts
    simp [rowToRec, hrat, hts]
  · intro r u m hs hrat hts
    have hbase : matchedRecs m [r] = [rowToRec u m r] := by
      simp [matchedRecs_cons, hs, matchedRecs]
    have hrec : rowToRec u m r = ⟨u, m, 0, []⟩ := by simp [rowToRec, hrat, hts]
    rcases lim with _ | k
    · unfold find_by_movie_id
      rw [findByMovieIdAux_none m [r] []]
      simp [hbase, hrec]
    · rcases Nat.eq_zero_or_pos k with rfl | hk
      · unfold find_by_movie_id
        rw [findByMovieIdAux_zero m [r] [], findByMovieIdAux_none m [r] []]
        simp [hbase, hrec]
      · unfold find_by_movie_id
        rw [findByMovieIdAux_take m k [r] [] (by simpa using hk)]
        simp only [List.nil_append, hbase, hrec]
        exact List.take_of_length_le (by simpa using hk)

/-- Witness for C8 (amended) at a concrete row with both columns missing:
the produced record defaults rating to `0` and timestamp to the empty
string. -/
theorem C8_malformed_rows_and_defaults_witness :
    find_by_movie_id [⟨"u9_m9".data, none, none⟩] ("m9".data) none
      = [⟨"u9".data, "m9".data, 0, []⟩] :=
  (C8_malformed_rows_and_defaults [] [] [] none 0).2.2.2
    ⟨"u9_m9".data, none, none⟩ ("u9".data) ("m9".data) (by decide) rfl rfl

/-! ### Statistics lemmas -/

/-- Sum of the ratings of a record list (`total` of the statistics loop). -/
def ratingSum (rs : List RatingRec) : ℚ := (rs.map RatingRec.rating).sum

/-- Sum of the per-bucket counts of a distribution. -/
def sumCounts (d : List (String × Nat)) : Nat := (d.map Prod.snd).sum

theorem statsStep_fst :
    ∀ (rs : List RatingRec) (q : ℚ) (d : List (String × Nat)),
      (rs.foldl statsStep (q, d)).1 = q + ratingSum rs := by
  intro rs
  induction rs with
  | nil => intro q d; simp [ratingSum]
  | cons r rest ih =>
    intro q d
    simp [statsStep, ratingSum, ih, add_assoc]

theorem sumCounts_incrKey (k : String) :
    ∀ d, sumCounts (incrKey k d) = sumCounts d + 1 := by
  intro d
  induction d with
  | nil => simp [incrKey, sumCounts]
  | cons p t ih =>
    rcases p with ⟨k', c⟩
    by_cases h : k' = k <;> simp [incrKey, h, sumCounts] at ih ⊢ <;> omega

theorem statsStep_snd :
    ∀ (rs : List RatingRec) (q : ℚ) (d : List (String × Nat)),
      sumCounts (rs.foldl statsStep (q, d)).2 = sumCounts d + rs.length := by
  intro rs
  induction rs with
  | nil => intro q d; simp
  | cons r rest ih =>
    intro q d
    simp only [List.foldl_cons, statsStep, ih, sumCounts_incrKey, List.length_cons]
    omega

/-- C2: `get_rating_stats(movie_id)` over the ratings whose row-key second
component equals `movie_id` returns `avg_rating` = sum of ratings / count and
`total_count` = count; on an empty rating set it returns
`avg_rating=0.0, total_count=0, rating_distribution={}`; each rating `r ≥ 1`
buckets under the string label of its floor and each rating below 1 under the
literal label `"0.5"`; and on rows `{"u1_m1": 5, "u2_m1": 3}` it yields
`avg_rating=4.0, total_count=2, rating_distribution={"5":1,"3":1}`. -/
theorem C2_rating_stats (tbl : List Row) (mid : List Char) :
    (find_by_movie_id tbl mid none ≠ [] →
      (get_rating_stats tbl mid).avg_rating
          = ratingSum (find_by_movie_id tbl mid none)
              / (find_by_movie_id tbl mid none).length
        ∧ (get_rating_stats tbl mid).total_count
          = (find_by_movie_id tbl mid none).length)
    ∧ (find_by_movie_id tbl mid none = [] →
        get_rating_stats tbl mid
          = { avg_rating := 0, total_count := 0, rating_distribution := [] })
    ∧ (∀ q : ℚ, 1 ≤ q → bucketLabel q = toString ⌊q⌋)
    ∧ (∀ q : ℚ, q < 1 → bucketLabel q = "0.5")
    ∧ get_rating_stats
        [⟨"u1_m1".data, some 5, some ("2020".data)⟩,
         ⟨"u2_m1".data, some 3, some ("2021".data)⟩] ("m1".data)
      = { avg_rating := 4, total_count := 2,
          rating_distribution := [("5", 1), ("3", 1)] } := by
  refine ⟨?_, ?_, ?_, ?_, ?_⟩
  · intro h
    unfold get_rating_stats
    rw [if_neg (by simpa using h)]
    constructor
    · simp only [statsStep_fst, zero_add]
    · simp
  · intro h
    unfold get_rating_stats
    rw [if_pos (by simpa using h)]
  · intro q h
    simp [bucketLabel, h]
  · intro q h
    simp [bucketLabel, not_le.mpr h]
  · have h : find_by_movie_id
        [⟨"u1_m1".data, some 5, some ("2020".data)⟩,
         ⟨"u2_m1".data, some 3, some ("2021".data)⟩] ("m1".data) none
        = [⟨"u1".data, "m1".data, 5, "2020".data⟩,
           ⟨"u2".data, "m1".data, 3, "2021".data⟩] := by decide
    unfold get_rating_stats
    rw [h]
    norm_num [statsStep, incrKey, bucketLabel]
    decide

/-- Witness for C2 on a nonempty concrete table: the average is the rating
sum over the count and the total is the count. -/
theorem C2_rating_stats_witness :
    (get_rating_stats [⟨"u1_m1".data, some 5, none⟩, ⟨"u2_m1".data, some 3, none⟩]
        ("m1".data)).avg_rating
      = ratingSum (find_by_movie_id
          [⟨"u1_m1".data, some 5, none⟩, ⟨"u2_m1".data, some 3, none⟩]
          ("m1".data) none)
        / (find_by_movie_id
          [⟨"u1_m1".data, some 5, none⟩, ⟨"u2_m1".data, some 3, none⟩]
          ("m1".data) none).length
    ∧ (get_rating_stats [⟨"u1_m1".data, some 5, none⟩, ⟨"u2_m1".data, some 3, none⟩]
        ("m1".data)).total_count
      = (find_by_movie_id
          [⟨"u1_m1".data, some 5, none⟩, ⟨"u2_m1".data, some 3, none⟩]
          ("m1".data) none).length :=
  (C2_rating_stats _ _).1 (by decide)

/-- C10: in every result of `get_rating_stats`, the counts in
`rating_distribution` sum to `total_count`: each rating goes to exactly one
bucket, none dropped or double-counted. -/
theorem C10_distribution_total (tbl : List Row) (mid : List Char) :
    sumCounts (get_rating_stats tbl mid).rating_distribution
      = (get_rating_stats tbl mid).total_count := by
  unfold get_rating_stats
  by_cases h : (find_by_movie_id tbl mid none).isEmpty = true
  · rw [if_pos h]
    simp [sumCounts]
  · rw [if_neg h]
    simp only [statsStep_snd]
    simp [sumCounts]

/-! ### Pagination lemmas -/

theorem pred_div_eq_ceilDivNat (a b : Nat) (hb : 0 < b) :
    (a + b - 1) / b = ceilDivNat a b := by
  rw [show a + b - 1 = a + (b - 1) by omega, Nat.add_div hb]
  rw [Nat.div_eq_of_lt (by omega : b - 1 < b),
    Nat.mod_eq_of_lt (by omega : b - 1 < b)]
  unfold ceilDivNat
  have h4 : a % b < b := Nat.mod_lt _ hb
  by_cases h5 : a % b = 0
  · rw [if_neg (fun hc => by omega), if_pos h5]
  · rw [if_pos (by omega), if_neg h5]

theorem le_ceilDivNat_mul (a b : Nat) (hb : 0 < b) : a ≤ ceilDivNat a b * b := by
  have h := Nat.div_add_mod a b
  have h4 : a % b < b := Nat.mod_lt _ hb
  by_cases h5 : a % b = 0
  · have he : ceilDivNat a b * b = b * (a / b) := by
      unfold ceilDivNat
      rw [if_pos h5]
      ring
    rw [he]
    linarith
  · have he : ceilDivNat a b * b = b * (a / b) + b := by
      unfold ceilDivNat
      rw [if_neg h5]
      ring
    rw [he]
    linarith

theorem join_chunks {α : Type} (ps : Nat) :
    ∀ (N : Nat) (l : List α),
      ((List.range N).map fun i => (l.drop (i * ps)).take ps).flatten
        = l.take (N * ps) := by
  intro N
  induction N with
  | zero => intro l; simp
  | succ N ih =>
    intro l
    rw [List.range_succ_eq_map, List.map_cons, List.flatten_cons, List.map_map]
    have hfun : ((fun i => (l.drop (i * ps)).take ps) ∘ Nat.succ)
        = fun i => (((l.drop ps).drop (i * ps)).take ps) := by
      funext i
      simp only [Function.comp_apply]
      rw [show Nat.succ i * ps = ps + i * ps by rw [Nat.succ_mul]; ring]
      exact congrArg (List.take ps) (List.drop_drop (i * ps) ps l).symm
    rw [hfun, ih (l.drop ps)]
    rw [show Nat.succ N * ps = ps + N * ps by rw [Nat.succ_mul]; ring, List.take_add]
    simp

/-- C4: for every valid `page ≥ 1` and `page_size ∈ [1,100]`,
`get_movies_list` sorts the whole movie set descending by
`(avg_rating, rating_count)` (rating primary, count as tie-break), returns
the slice `[(page-1)*page_size, page*page_size)` — hence at most `page_size`
items — returns `total_pages = ceil(total / page_size)`, and concatenating
all pages in page order reproduces the full sorted set with no duplicates or
omissions (the pages flatten to the sorted permutation of the input). -/
theorem C4_get_movies_list (all_movies_data : List Movie) (page page_size : Nat)
    (hpage : 1 ≤ page) (hps1 : 1 ≤ page_size) (hps2 : page_size ≤ 100) :
    List.Sorted movieRel (List.insertionSort movieRel all_movies_data)
    ∧ (List.insertionSort movieRel all_movies_data).Perm all_movies_data
    ∧ (get_movies_list all_movies_data page page_size).1
        = ((List.insertionSort movieRel all_movies_data).drop
            ((page - 1) * page_size)).take page_size
    ∧ (get_movies_list all_movies_data page page_size).1.length ≤ page_size
    ∧ (get_movies_list all_movies_data page page_size).2.1
        = all_movies_data.length
    ∧ (get_movies_list all_movies_data page page_size).2.2
        = ceilDivNat all_movies_data.length page_size
    ∧ ((List.range (get_movies_list all_movies_data page page_size).2.2).map
          fun i => (get_movies_list all_movies_data (i + 1) page_size).1).flatten
        = List.insertionSort movieRel all_movies_data := by
  have hsorted := List.sorted_insertionSort movieRel all_movies_data
  have hperm := List.perm_insertionSort movieRel all_movies_data
  have hlen : (List.insertionSort movieRel all_movies_data).length
      = all_movies_data.length := hperm.length_eq
  have hslice : (get_movies_list all_movies_data page page_size).1
      = ((List.insertionSort movieRel all_movies_data).drop
          ((page - 1) * page_size)).take page_size := rfl
  have htotal : (get_movies_list all_movies_data page page_size).2.1
      = all_movies_data.length := hlen
  have hps0 : 0 < page_size := hps1
  have htp : (get_movies_list all_movies_data page page_size).2.2
      = ceilDivNat all_movies_data.length page_size := by
    show ((List.insertionSort movieRel all_movies_data).length + page_size - 1)
        / page_size = _
    rw [hlen]
    exact pred_div_eq_ceilDivNat _ _ hps0
  refine ⟨hsorted, hperm, hslice, ?_, htotal, htp, ?_⟩
  · rw [hslice]
    simp [List.length_take]
  · rw [htp]
    have hpages : (fun i => (get_movies_list all_movies_data (i + 1) page_size).1)
        = fun i => ((List.insertionSort movieRel all_movies_data).drop
            (i * page_size)).take page_size := by
      funext i
      simp [get_movies_list]
    rw [hpages, join_chunks]
    exact List.take_of_length_le (by rw [hlen]; exact le_ceilDivNat_mul _ _ hps0)

/-- Witness for C4 at a concrete movie set with `page=1, page_size=2`. -/
theorem C4_get_movies_list_witness :
    (get_movies_list
        [⟨"1", "A", [], 3, 10⟩, ⟨"2", "B", [], 5, 2⟩, ⟨"3", "C", [], 5, 7⟩]
        1 2).1.length ≤ 2
    ∧ (get_movies_list
        [⟨"1", "A", [], 3, 10⟩, ⟨"2", "B", [], 5, 2⟩, ⟨"3", "C", [], 5, 7⟩]
        1 2).2.2 = ceilDivNat 3 2 :=
  ⟨(C4_get_movies_list _ 1 2 (by decide) (by decide) (by decide)).2.2.2.1,
   (C4_get_movies_list _ 1 2 (by decide) (by decide) (by decide)).2.2.2.2.2.1⟩

/-- C6: `get_movie_ratings(movie_id, page, page_size)` fetches all ratings
for the movie via an unbounded scan (`limit=None`, so the full matching set),
sorts them descending by timestamp under lexicographic string comparison,
returns the slice `[(page-1)*page_size, page*page_size)`, and returns
`total_pages = ceil(total/page_size)` when `total > 0` and `total_pages = 0`
when `total == 0`. -/
theorem C6_get_movie_ratings (tbl : List Row) (mid : List Char) (page ps : Nat)
    (hpage : 1 ≤ page) (hps : 1 ≤ ps) :
    find_by_movie_id tbl mid none = matchedRecs mid tbl
    ∧ List.Sorted ratingTimeRel
        (List.insertionSort ratingTimeRel (find_by_movie_id tbl mid none))
    ∧ (List.insertionSort ratingTimeRel (find_by_movie_id tbl mid none)).Perm
        (find_by_movie_id tbl mid none)
    ∧ (get_movie_ratings tbl mid page ps).1
        = ((List.insertionSort ratingTimeRel (find_by_movie_id tbl mid none)).drop
            ((page - 1) * ps)).take ps
    ∧ (get_movie_ratings tbl mid page ps).2.1
        = (find_by_movie_id tbl mid none).length
    ∧ (0 < (find_by_movie_id tbl mid none).length →
        (get_movie_ratings tbl mid page ps).2.2
          = ceilDivNat (find_by_movie_id tbl mid none).length ps)
    ∧ ((find_by_movie_id tbl mid none).length = 0 →
        (get_movie_ratings tbl mid page ps).2.2 = 0) := by
  have hperm := List.perm_insertionSort ratingTimeRel (find_by_movie_id tbl mid none)
  have hlen : (List.insertionSort ratingTimeRel (find_by_movie_id tbl mid none)).length
      = (find_by_movie_id tbl mid none).length := hperm.length_eq
  refine ⟨?_, List.sorted_insertionSort ratingTimeRel _, hperm, rfl, hlen, ?_, ?_⟩
  · unfold find_by_movie_id
    simpa using findByMovieIdAux_none mid tbl []
  · intro hpos
    show (if 0 < (List.insertionSort ratingTimeRel
          (find_by_movie_id tbl mid none)).length then _ else 0) = _
    rw [if_pos (by rw [hlen]; exact hpos), hlen]
    exact pred_div_eq_ceilDivNat _ _ hps
  · intro hzero
    show (if 0 < (List.insertionSort ratingTimeRel
          (find_by_movie_id tbl mid none)).length then _ else 0) = 0
    rw [if_neg (by rw [hlen]; omega)]

/-- Witness for C6 at a concrete table with three ratings, `page=1,
page_size=2`: `total_pages = ceil(3/2) = 2`. -/
theorem C6_get_movie_ratings_witness :
    (get_movie_ratings
        [⟨"u1_m1".data, some 5, some ("2020-01".data)⟩,
         ⟨"u2_m1".data, some 3, some ("2021-05".data)⟩,
         ⟨"u3_m1".data, some 4, some ("2019-12".data)⟩]
        ("m1".data) 1 2).2.2
      = ceilDivNat (find_by_movie_id
          [⟨"u1_m1".data, some 5, some ("2020-01".data)⟩,
           ⟨"u2_m1".data, some 3, some ("2021-05".data)⟩,
           ⟨"u3_m1".data, some 4, some ("2019-12".data)⟩]
          ("m1".data) none).length 2 :=
  (C6_get_movie_ratings _ _ 1 2 (by decide) (by decide)).2.2.2.2.2.1 (by decide)

/-- Relation `searchRel` respects the title-match grouping: anything ordered before a
title match is itself a title match. -/
theorem searchRel_titleMatch (q : String) (a b : Movie) (h : searchRel q a b)
    (hb : titleMatch q b = true) : titleMatch q a = true := by
  unfold searchRel searchKey at h
  rcases (Prod.Lex.le_iff _ _).mp h with h1 | ⟨h2, -⟩
  · rw [hb] at h1
    simp [Bool.lt_iff] at h1
  · rw [hb] at h2
    simpa using h2

/-- C5: `search_movies` — a query that is non-empty after trimming and
all-digits is an exact id lookup returning at most one movie (exactly the
movie with that id when present, the empty sequence when absent) and never
falls through to text search; an empty/whitespace-only query returns the
empty sequence without querying the store (the result is `[]` for every
store and text-search collaborator); a text query returns the text-search
results re-ranked so that title matches (case-insensitive substring) come
before non-title matches, each group sorted by descending avg_rating then
descending rating_count. -/
theorem C5_search_movies (store : List Movie)
    (search_by_text : String → Nat → List Movie) (query : String) (limit : Nat) :
    ((⟨stripL query.data⟩ : String) = "" →
      ∀ (store2 : List Movie) (sbt2 : String → Nat → List Movie),
        search_movies store2 sbt2 query limit = [])
    ∧ (∀ q : String, q = (⟨stripL query.data⟩ : String) → q ≠ "" →
        isDigitStr q = true →
        (∀ sbt2 : String → Nat → List Movie,
          search_movies store sbt2 query limit
            = search_movies store search_by_text query limit)
        ∧ (search_movies store search_by_text query limit).length ≤ 1
        ∧ (∀ m, movieRepoFindById store q = some m →
            search_movies store search_by_text query limit = [m] ∧ m.id = q)
        ∧ (movieRepoFindById store q = none →
            search_movies store search_by_text query limit = []))
    ∧ (∀ q : String, q = (⟨stripL query.data⟩ : String) → q ≠ "" →
        isDigitStr q = false →
        List.Sorted (searchRel q) (search_movies store search_by_text query limit)
        ∧ (search_movies store search_by_text query limit).Perm
            (search_by_text q limit)
        ∧ List.Pairwise (fun a b => titleMatch q b = true → titleMatch q a = true)
            (search_movies store search_by_text query limit)) := by
  refine ⟨?_, ?_, ?_⟩
  · intro h store2 sbt2
    simp only [search_movies]
    rw [if_pos h]
  · intro q hq hne hdig
    subst hq
    refine ⟨?_, ?_, ?_, ?_⟩
    · intro sbt2
      simp only [search_movies]
      rw [if_neg hne, if_neg hne, if_pos hdig, if_pos hdig]
    · simp only [search_movies]
      rw [if_neg hne, if_pos hdig]
      cases hfind : movieRepoFindById store ⟨stripL query.data⟩ <;> simp
    · intro m hm
      constructor
      · simp only [search_movies]
        rw [if_neg hne, if_pos hdig, hm]
      · have := List.find?_some hm
        simpa using this
    · intro hfind
      simp only [search_movies]
      rw [if_neg hne, if_pos hdig, hfind]
  · intro q hq hne hdig
    subst hq
    have hres : search_movies store search_by_text query limit
        = List.insertionSort (searchRel ⟨stripL query.data⟩)
            (search_by_text ⟨stripL query.data⟩ limit) := by
      simp only [search_movies]
      rw [if_neg hne, if_neg (by simp [hdig])]
    rw [hres]
    refine ⟨List.sorted_insertionSort _ _, List.perm_insertionSort _ _, ?_⟩
    exact (List.sorted_insertionSort _ _).imp
      (fun h hb => searchRel_titleMatch _ _ _ h hb)

/-- Witness for C5: the trimmed all-digit query `" 42 "` resolves to an exact
id lookup on a store holding movie `"42"`. -/
theorem C5_search_movies_witness :
    search_movies [⟨"42", "X", [], 1, 1⟩] (fun _ _ => []) " 42 " 50
      = [⟨"42", "X", [], 1, 1⟩]
    ∧ Movie.id ⟨"42", "X", [], 1, 1⟩ = ("42" : String) :=
  ((C5_search_movies [⟨"42", "X", [], 1, 1⟩] (fun _ _ => []) " 42 " 50).2.1
      "42" (by decide) (by decide) (by decide)).2.2.1
    ⟨"42", "X", [], 1, 1⟩ (by decide)

end MovieRatings
